import Mathlib

/-!
Verification of the `.codexignore` matcher (`codex-rs/core/src/codexignore.rs`).

The Rust file wraps the gitignore pattern engine behind `CodexIgnore`, whose
own logic is: resolving a query path to an absolute path (`to_absolute`),
stripping the root to obtain a root-relative path (`relative_path`,
`is_ignored`), substituting the `.` marker when the query equals root, and
mapping the match result to a boolean verdict.  Those parts are embedded
directly from the source.  The pattern compiler and the
`matched_path_or_any_parents` evaluation live outside the repository and are
modelled from the specification (compilation of gitignore-syntax lines into
an ordered rule list; last-matching-rule-wins evaluation of the path and of
each of its parent directories, deepest first).

Paths are modelled as a flag (absolute or relative) together with the list of
path segments; this mirrors `std::path::Path` up to the operations the source
uses (`is_absolute`, `join`, `strip_prefix`, emptiness).
-/

/-- A filesystem path: absolute or relative, with its list of segments. -/
structure FsPath where
  absolute : Bool
  segments : List String
deriving DecidableEq, Repr

/-- `Path::join`: an absolute right operand replaces the left, otherwise the
segments are appended. -/
def FsPath.join (p q : FsPath) : FsPath :=
  if q.absolute then q else ⟨p.absolute, p.segments ++ q.segments⟩

/-- `Path::strip_prefix` restricted to how the source uses it: returns the
remaining segments when `base` is a component-wise prefix of `p` (with the same
absoluteness), and `none` otherwise. -/
def stripPrefixOf (base p : FsPath) : Option (List String) :=
  if base.absolute = p.absolute ∧ base.segments.isPrefixOf p.segments then
    some (p.segments.drop base.segments.length)
  else
    none

/-- Modelled from the spec: one token of a glob path segment
(`*`, `?`, `[...]` character class, or a literal character). -/
inductive GlobTok where
  | lit (c : Char)
  | star
  | qmark
  | cls (negative : Bool) (chars : List Char)
deriving DecidableEq, Repr

/-- Modelled from the spec: one segment of a compiled glob — either the
`**` segment (any number of path segments) or a token sequence. -/
inductive GlobSeg where
  | doubleStar
  | seg (toks : List GlobTok)
deriving DecidableEq, Repr

/-- Modelled from the spec: one compiled pattern line — glob segments plus the
negation, directory-only and anchoring flags. -/
structure Rule where
  glob : List GlobSeg
  negated : Bool
  dirOnly : Bool
  anchored : Bool
deriving DecidableEq, Repr

/-- Modelled from the spec: does a token sequence match the characters of one
path segment?  `*` matches any run of characters within the segment, `?`
exactly one, a character class one character from (or outside) its set. -/
def matchToks : List GlobTok → List Char → Bool
  | [], cs => cs.isEmpty
  | .lit c :: ts, d :: ds => c = d && matchToks ts ds
  | .lit _ :: _, [] => false
  | .qmark :: ts, _ :: ds => matchToks ts ds
  | .qmark :: _, [] => false
  | .cls neg set :: ts, d :: ds => (set.contains d != neg) && matchToks ts ds
  | .cls _ _ :: _, [] => false
  | .star :: ts, cs => cs.tails.any fun suf => matchToks ts suf

/-- Modelled from the spec: does a glob match a whole segment list?
`**` may absorb any number of leading segments. -/
def matchSegs : List GlobSeg → List String → Bool
  | [], segs => segs.isEmpty
  | .seg ts :: gs, s :: rest => matchToks ts s.toList && matchSegs gs rest
  | .seg _ :: _, [] => false
  | .doubleStar :: gs, segs => segs.tails.any fun suf => matchSegs gs suf

/-- Modelled from the spec: does a rule match exactly this path (no parent
inheritance)?  A directory-only rule requires the directory flag; an anchored
rule must match from the first segment, an unanchored one from any segment. -/
def ruleMatchesExact (r : Rule) (segs : List String) (isDir : Bool) : Bool :=
  (!r.dirOnly || isDir) &&
    (if r.anchored then matchSegs r.glob segs
     else matchSegs (.doubleStar :: r.glob) segs)

/-- The last rule in declaration order that matches the path exactly. -/
def matchedAt (rules : List Rule) (segs : List String) (isDir : Bool) :
    Option Rule :=
  (rules.filter fun r => ruleMatchesExact r segs isDir).getLast?

/-- Result of matching one path against the rule list. -/
inductive MatchRes where
  | ignore
  | whitelist
  | nomatch
deriving DecidableEq, Repr

/-- Match result for one path level: the last matching rule decides, a negated
rule whitelisting and a plain rule ignoring. -/
def resAt (rules : List Rule) (segs : List String) (isDir : Bool) : MatchRes :=
  match matchedAt rules segs isDir with
  | some r => if r.negated then .whitelist else .ignore
  | none => .nomatch

/-- The nonempty proper prefixes of a segment list, shortest first. -/
def properPrefixes : List String → List (List String)
  | [] => []
  | [_] => []
  | a :: rest => [a] :: (properPrefixes rest).map (a :: ·)

/-- The parent directories of a path, deepest first. -/
def ancestorsDF (segs : List String) : List (List String) :=
  (properPrefixes segs).reverse

/-- First decisive result over a list of parent paths (each a directory). -/
def firstMatch (rules : List Rule) : List (List String) → MatchRes
  | [] => .nomatch
  | l :: ls =>
    match resAt rules l true with
    | .nomatch => firstMatch rules ls
    | r => r

/-- Modelled from the spec: `matched_path_or_any_parents` — the path itself is
checked first, then each parent directory, deepest first; the first level with
a decisive result wins, and within a level the last matching rule wins. -/
def matchedPathOrAnyParents (rules : List Rule) (segs : List String)
    (isDir : Bool) : MatchRes :=
  match resAt rules segs isDir with
  | .nomatch => firstMatch rules (ancestorsDF segs)
  | r => r

/-- The final boolean verdict: only `Ignore` means ignored. -/
def verdict : MatchRes → Bool
  | .ignore => true
  | .whitelist => false
  | .nomatch => false

/-- The matcher: the canonical absolute root plus the compiled rule list. -/
structure CodexIgnore where
  root : FsPath
  matcher : List Rule
deriving DecidableEq, Repr

/-- `CodexIgnore::to_absolute`: an absolute query path is used as-is, a
relative one is joined onto the root. -/
def CodexIgnore.to_absolute (ci : CodexIgnore) (p : FsPath) : FsPath :=
  if p.absolute then p else ci.root.join p

/-- `CodexIgnore::relative_path`: the query resolved to an absolute path, then
the root stripped; `none` when the path is not under the root. -/
def CodexIgnore.relative_path (ci : CodexIgnore) (p : FsPath) :
    Option FsPath :=
  (stripPrefixOf ci.root (ci.to_absolute p)).map fun segs => ⟨false, segs⟩

/-- The segments `CodexIgnore::is_ignored` hands to the matcher: the stripped
root-relative segments, with the `.` marker substituted when they are empty. -/
def CodexIgnore.querySegs (ci : CodexIgnore) (p : FsPath) :
    Option (List String) :=
  (stripPrefixOf ci.root (ci.to_absolute p)).map fun rel =>
    if rel.isEmpty then ["."] else rel

/-- `CodexIgnore::is_ignored`: out-of-root paths are never ignored; otherwise
the match result of the root-relative path decides. -/
def CodexIgnore.is_ignored (ci : CodexIgnore) (p : FsPath) (isDir : Bool) :
    Bool :=
  match ci.querySegs p with
  | none => false
  | some segs => verdict (matchedPathOrAnyParents ci.matcher segs isDir)

/-- `CodexIgnore::is_file_ignored`. -/
def CodexIgnore.is_file_ignored (ci : CodexIgnore) (p : FsPath) : Bool :=
  ci.is_ignored p false

/-- `CodexIgnore::is_dir_ignored`. -/
def CodexIgnore.is_dir_ignored (ci : CodexIgnore) (p : FsPath) : Bool :=
  ci.is_ignored p true

/-- Modelled from the spec: parse the text of one glob segment into tokens.
The first argument is `some (neg, acc)` while scanning the body of a `[...]`
character class; an unterminated class is the malformed-pattern error. -/
def parseToksAux : Option (Bool × List Char) → List Char →
    Except Unit (List GlobTok)
  | some _, [] => .error ()
  | some (neg, acc), ']' :: rest =>
    (parseToksAux none rest).map (.cls neg acc.reverse :: ·)
  | some (neg, acc), c :: rest => parseToksAux (some (neg, c :: acc)) rest
  | none, [] => .ok []
  | none, '*' :: rest => (parseToksAux none rest).map (.star :: ·)
  | none, '?' :: rest => (parseToksAux none rest).map (.qmark :: ·)
  | none, '[' :: '!' :: rest => parseToksAux (some (true, [])) rest
  | none, '[' :: rest => parseToksAux (some (false, [])) rest
  | none, c :: rest => (parseToksAux none rest).map (.lit c :: ·)

/-- Modelled from the spec: parse one glob segment's text into tokens. -/
def parseToks (cs : List Char) : Except Unit (List GlobTok) :=
  parseToksAux none cs

/-- Split pattern text on `/` into segment texts. -/
def splitSlash : List Char → List (List Char)
  | [] => [[]]
  | '/' :: rest => [] :: splitSlash rest
  | c :: rest =>
    match splitSlash rest with
    | [] => [[c]]
    | s :: ss => (c :: s) :: ss

/-- Parse one segment text: `**` is the any-depth segment, anything else a
token sequence. -/
def parseSeg (cs : List Char) : Except Unit GlobSeg :=
  if cs = ['*', '*'] then .ok .doubleStar
  else (parseToks cs).map .seg

/-- Strip trailing spaces from a pattern line. -/
def stripTrailingSpaces (cs : List Char) : List Char :=
  (cs.reverse.dropWhile (· = ' ')).reverse

/-- Modelled from the spec: compile one ignore-file line.  Blank lines and
`#` comments yield no rule; a leading `!` negates; a trailing `/` marks
directory-only; a `/` before the last character anchors; a leading `/` is
stripped for segmentation; malformed glob text is the error. -/
def compileLine (line : String) : Except Unit (Option Rule) :=
  let cs := stripTrailingSpaces line.toList
  match cs with
  | [] => .ok none
  | '#' :: _ => .ok none
  | _ =>
    let (negated, cs₁) :=
      match cs with
      | '!' :: rest => (true, rest)
      | _ => (false, cs)
    let (dirOnly, cs₂) :=
      if cs₁.getLast? = some '/' then (true, cs₁.dropLast) else (false, cs₁)
    match cs₂ with
    | [] => .ok none
    | _ =>
      let anchored := cs₂.dropLast.contains '/'
      let cs₃ := match cs₂ with
        | '/' :: rest => rest
        | _ => cs₂
      match (splitSlash cs₃).mapM parseSeg with
      | .error _ => .error ()
      | .ok segs => .ok (some ⟨segs, negated, dirOnly, anchored⟩)

/-- Modelled from the spec: compile the ignore file's lines in order; the
first malformed line aborts compilation with its 1-based line number. -/
def compileLines : Nat → List String → Except Nat (List Rule)
  | _, [] => .ok []
  | n, l :: ls =>
    match compileLine l with
    | .error _ => .error n
    | .ok none => compileLines (n + 1) ls
    | .ok (some r) => (compileLines (n + 1) ls).map (r :: ·)

/-- Modelled from the spec: the pattern compiler over whole-file contents. -/
def compile (lines : List String) : Except Nat (List Rule) :=
  compileLines 1 lines

/-- Construction-time errors: the ignore file is unreadable, or a pattern
line (1-based) is malformed. -/
inductive LoadErr where
  | ioError
  | invalidPattern (line : Nat)
deriving DecidableEq, Repr

/-- `CodexIgnore::load_from_root`.  The filesystem collaborator is modelled
as what it hands back for `root/.codexignore`: `none` when the file does not
exist, `some (.error ())` when it exists but cannot be read, and
`some (.ok lines)` when it is read successfully.  A missing file yields
`Ok(None)`; a read failure or malformed pattern is a construction error and
no matcher is produced. -/
def CodexIgnore.load_from_root (root : FsPath)
    (file : Option (Except Unit (List String))) :
    Except LoadErr (Option CodexIgnore) :=
  match file with
  | none => .ok none
  | some (.error _) => .error .ioError
  | some (.ok lines) =>
    match compile lines with
    | .error n => .error (.invalidPattern n)
    | .ok rules => .ok (some ⟨root, rules⟩)

/-! ### Helper lemmas about path stripping -/

theorem isPrefixOf_append_self (l t : List String) :
    l.isPrefixOf (l ++ t) = true := by
  induction l with
  | nil => simp [List.isPrefixOf]
  | cons a l ih => simp [List.isPrefixOf, ih]

theorem eq_append_drop_of_isPrefixOf :
    ∀ {l m : List String}, l.isPrefixOf m = true →
      m = l ++ m.drop l.length := by
  intro l
  induction l with
  | nil => intro m _; simp
  | cons a l ih =>
    intro m h
    cases m with
    | nil => simp [List.isPrefixOf] at h
    | cons b bs =>
      simp only [List.isPrefixOf, Bool.and_eq_true, beq_iff_eq] at h
      obtain ⟨h1, h2⟩ := h
      subst h1
      simpa using ih h2

theorem stripPrefixOf_self (r : FsPath) : stripPrefixOf r r = some [] := by
  simp [stripPrefixOf, isPrefixOf_append_self r.segments []]

theorem stripPrefixOf_append_segs (r : FsPath) (t : List String) :
    stripPrefixOf r ⟨r.absolute, r.segments ++ t⟩ = some t := by
  simp [stripPrefixOf, isPrefixOf_append_self]

theorem stripPrefixOf_eq_some {base p : FsPath} {segs : List String}
    (h : stripPrefixOf base p = some segs) :
    p.absolute = base.absolute ∧ p.segments = base.segments ++ segs := by
  unfold stripPrefixOf at h
  split at h
  · rename_i hc
    obtain ⟨hab, hpre⟩ := hc
    injection h with hsegs
    subst hsegs
    exact ⟨hab.symm, eq_append_drop_of_isPrefixOf hpre⟩
  · exact absurd h (by simp)

/-! ### Helper lemmas about rule matching -/

theorem matchedAt_concat (rules : List Rule) (r : Rule) (segs : List String)
    (d : Bool) :
    matchedAt (rules ++ [r]) segs d =
      if ruleMatchesExact r segs d then some r else matchedAt rules segs d := by
  unfold matchedAt
  rw [List.filter_append]
  by_cases h : ruleMatchesExact r segs d
  · simp [h, List.getLast?_concat]
  · simp [h]

theorem matchedAt_eq_none (rules : List Rule) (segs : List String) (d : Bool)
    (h : ∀ r ∈ rules, ruleMatchesExact r segs d = false) :
    matchedAt rules segs d = none := by
  unfold matchedAt
  have : rules.filter (fun r => ruleMatchesExact r segs d) = [] := by
    rw [List.filter_eq_nil_iff]
    intro r hr
    simp [h r hr]
  rw [this]
  rfl

theorem resAt_eq_nomatch (rules : List Rule) (segs : List String) (d : Bool)
    (h : ∀ r ∈ rules, ruleMatchesExact r segs d = false) :
    resAt rules segs d = .nomatch := by
  unfold resAt
  rw [matchedAt_eq_none rules segs d h]

theorem matchedPathOrAnyParents_of_matchedAt {rules : List Rule}
    {segs : List String} {d : Bool} {r : Rule}
    (h : matchedAt rules segs d = some r) :
    matchedPathOrAnyParents rules segs d =
      if r.negated then .whitelist else .ignore := by
  unfold matchedPathOrAnyParents resAt
  rw [h]
  cases hr : r.negated <;> simp [hr]

theorem firstMatch_eq_nomatch (rules : List Rule) (ls : List (List String))
    (h : ∀ l ∈ ls, resAt rules l true = .nomatch) :
    firstMatch rules ls = .nomatch := by
  induction ls with
  | nil => rfl
  | cons l ls ih =>
    unfold firstMatch
    rw [h l (by simp)]
    exact ih fun l' hl' => h l' (by simp [hl'])

theorem resAt_single_nonneg (r : Rule) (segs : List String) (d : Bool)
    (hneg : r.negated = false) :
    resAt [r] segs d = .nomatch ∨ resAt [r] segs d = .ignore := by
  unfold resAt matchedAt
  by_cases h : ruleMatchesExact r segs d
  · right
    simp [List.filter, h, List.getLast?, hneg]
  · left
    simp at h
    simp [List.filter, h, List.getLast?]

theorem firstMatch_single_ignore (r : Rule) (hneg : r.negated = false) :
    ∀ ls : List (List String), (∃ l ∈ ls, resAt [r] l true = .ignore) →
      firstMatch [r] ls = .ignore := by
  intro ls
  induction ls with
  | nil => rintro ⟨l, hl, _⟩; simp at hl
  | cons l ls ih =>
    rintro ⟨l', hl', hres⟩
    unfold firstMatch
    rcases resAt_single_nonneg r l true hneg with h | h
    · rw [h]
      apply ih
      rcases List.mem_cons.mp hl' with rfl | hmem
      · rw [hres] at h; exact absurd h (by simp)
      · exact ⟨l', hmem, hres⟩
    · rw [h]

theorem mem_ancestorsDF_head (a : String) (rest : List String)
    (h : rest ≠ []) : [a] ∈ ancestorsDF (a :: rest) := by
  cases rest with
  | nil => exact absurd rfl h
  | cons b bs =>
    unfold ancestorsDF
    rw [List.mem_reverse]
    show [a] ∈ properPrefixes (a :: b :: bs)
    unfold properPrefixes
    exact List.mem_cons_self _ _

theorem FsPath.ext_eq {p q : FsPath} (h1 : p.absolute = q.absolute)
    (h2 : p.segments = q.segments) : p = q := by
  cases p
  cases q
  simp only at h1 h2
  rw [h1, h2]

theorem is_ignored_under_root (ci : CodexIgnore) (t : List String) (b : Bool)
    (habs : ci.root.absolute = true) (ht : t ≠ []) :
    ci.is_ignored ⟨true, ci.root.segments ++ t⟩ b =
      verdict (matchedPathOrAnyParents ci.matcher t b) := by
  have hq : ci.querySegs ⟨true, ci.root.segments ++ t⟩ = some t := by
    unfold CodexIgnore.querySegs CodexIgnore.to_absolute
    have hs : stripPrefixOf ci.root ⟨true, ci.root.segments ++ t⟩ = some t := by
      have h0 := stripPrefixOf_append_segs ci.root t
      rwa [habs] at h0
    simp [hs, ht]
  unfold CodexIgnore.is_ignored
  rw [hq]

/-! ### Concrete fixtures used by the test-style claims -/

/-- The canonical absolute root used by the concrete examples. -/
def rootAbs : FsPath := ⟨true, ["root"]⟩

/-- The rule compiled from the line `*.log`. -/
def rStarLog : Rule :=
  ⟨[.seg [.star, .lit '.', .lit 'l', .lit 'o', .lit 'g']], false, false, false⟩

/-- The rule compiled from the line `!important.log`. -/
def rNotImportant : Rule :=
  ⟨[.seg ("important.log".toList.map GlobTok.lit)], true, false, false⟩

/-- The matcher for the two-line file `*.log` then `!important.log`. -/
def ciLogs : CodexIgnore := ⟨rootAbs, [rStarLog, rNotImportant]⟩

/-- The matcher for the reversed two-line file. -/
def ciLogsRev : CodexIgnore := ⟨rootAbs, [rNotImportant, rStarLog]⟩

/-- The rule compiled from the line `build/`. -/
def buildRule : Rule :=
  ⟨[.seg ("build".toList.map GlobTok.lit)], false, true, false⟩

/-- The matcher for the one-line file `build/`. -/
def ciBuild : CodexIgnore := ⟨rootAbs, [buildRule]⟩

theorem buildRule_exact_file (segs : List String) :
    ruleMatchesExact buildRule segs false = false := rfl

theorem build_nested_ignored (rest : List String) (h : rest ≠ []) :
    matchedPathOrAnyParents [buildRule] ("build" :: rest) false = .ignore := by
  have h1 : resAt [buildRule] ("build" :: rest) false = .nomatch := by
    apply resAt_eq_nomatch
    intro r hr
    rw [List.mem_singleton] at hr
    subst hr
    exact buildRule_exact_file _
  unfold matchedPathOrAnyParents
  rw [h1]
  exact firstMatch_single_ignore buildRule rfl _
    ⟨["build"], mem_ancestorsDF_head "build" rest h, by decide⟩

/-! ### Claim theorems -/

/-- C1: with `*.log` then `!important.log`, `root/important.log` is not
ignored while `root/debug.log` is; with the lines reversed,
`root/important.log` is ignored again.  In general the last rule in
declaration order that matches decides the verdict, and a path matched by no
rule (neither itself nor any of its parents) is not ignored. -/
theorem negation_precedence_C1 :
    compile ["*.log", "!important.log"] = .ok [rStarLog, rNotImportant] ∧
    compile ["!important.log", "*.log"] = .ok [rNotImportant, rStarLog] ∧
    ciLogs.is_file_ignored ⟨true, ["root", "important.log"]⟩ = false ∧
    ciLogs.is_file_ignored ⟨true, ["root", "debug.log"]⟩ = true ∧
    ciLogsRev.is_file_ignored ⟨true, ["root", "important.log"]⟩ = true ∧
    (∀ (rules : List Rule) (segs : List String) (d : Bool) (r : Rule),
       matchedAt rules segs d = some r →
         matchedPathOrAnyParents rules segs d =
           if r.negated then MatchRes.whitelist else MatchRes.ignore) ∧
    (∀ (rules : List Rule) (r : Rule) (segs : List String) (d : Bool),
       matchedAt (rules ++ [r]) segs d =
         if ruleMatchesExact r segs d then some r
         else matchedAt rules segs d) ∧
    (∀ (ci : CodexIgnore) (p : FsPath) (b : Bool) (segs : List String),
       ci.querySegs p = some segs →
       (∀ r ∈ ci.matcher, ruleMatchesExact r segs b = false) →
       (∀ r ∈ ci.matcher, ∀ anc ∈ ancestorsDF segs,
          ruleMatchesExact r anc true = false) →
       ci.is_ignored p b = false) := by
  refine ⟨rfl, rfl, by decide, by decide, by decide, ?_, ?_, ?_⟩
  · intro rules segs d r h
    exact matchedPathOrAnyParents_of_matchedAt h
  · intro rules r segs d
    exact matchedAt_concat rules r segs d
  · intro ci p b segs hq hexact hanc
    have h1 : resAt ci.matcher segs b = .nomatch :=
      resAt_eq_nomatch _ _ _ hexact
    have h2 : firstMatch ci.matcher (ancestorsDF segs) = .nomatch :=
      firstMatch_eq_nomatch _ _ fun l hl =>
        resAt_eq_nomatch _ _ _ fun r hr => hanc r hr l hl
    unfold CodexIgnore.is_ignored
    rw [hq]
    show verdict (matchedPathOrAnyParents ci.matcher segs b) = false
    unfold matchedPathOrAnyParents
    rw [h1]
    show verdict (firstMatch ci.matcher (ancestorsDF segs)) = false
    rw [h2]
    rfl

theorem negation_precedence_C1_witness :
    matchedAt [rStarLog, rNotImportant] ["important.log"] false =
      some rNotImportant ∧
    matchedPathOrAnyParents [rStarLog, rNotImportant] ["important.log"]
        false =
      if rNotImportant.negated then MatchRes.whitelist else MatchRes.ignore :=
  ⟨by decide,
   negation_precedence_C1.2.2.2.2.2.1 [rStarLog, rNotImportant]
     ["important.log"] false rNotImportant (by decide)⟩

/-- C2: with the single pattern `build/`, the directory `root/build` is
ignored, every file nested under `root/build` is ignored, and a file
literally named `build` is not ignored. -/
theorem dir_only_semantics_C2 :
    compile ["build/"] = .ok [buildRule] ∧
    ciBuild.is_dir_ignored ⟨true, ["root", "build"]⟩ = true ∧
    (∀ rest : List String, rest ≠ [] →
       ciBuild.is_file_ignored ⟨true, "root" :: "build" :: rest⟩ = true) ∧
    ciBuild.is_file_ignored ⟨true, ["root", "build"]⟩ = false := by
  refine ⟨rfl, by decide, ?_, by decide⟩
  intro rest hrest
  show ciBuild.is_ignored ⟨true, "root" :: "build" :: rest⟩ false = true
  have h := is_ignored_under_root ciBuild ("build" :: rest) false rfl
    (by simp)
  rw [show (⟨true, "root" :: "build" :: rest⟩ : FsPath) =
        ⟨true, ciBuild.root.segments ++ ("build" :: rest)⟩ from rfl, h]
  rw [show ciBuild.matcher = [buildRule] from rfl,
    build_nested_ignored rest hrest]
  rfl

theorem dir_only_semantics_C2_witness :
    (["x"] : List String) ≠ [] ∧
    ciBuild.is_file_ignored ⟨true, ["root", "build", "x"]⟩ = true :=
  ⟨by decide, dir_only_semantics_C2.2.2.1 ["x"] (by decide)⟩

/-- C3: an absolute query path whose components do not extend the root is
never ignored (as file or as directory) and has no root-relative form. -/
theorem outside_root_C3 (ci : CodexIgnore) (p : FsPath)
    (habs : p.absolute = true)
    (hout : ¬(ci.root.absolute = p.absolute ∧
              ci.root.segments.isPrefixOf p.segments = true)) :
    ci.is_file_ignored p = false ∧ ci.is_dir_ignored p = false ∧
      ci.relative_path p = none := by
  have hto : ci.to_absolute p = p := by
    simp [CodexIgnore.to_absolute, habs]
  have hstrip : stripPrefixOf ci.root p = none := by
    unfold stripPrefixOf
    rw [if_neg hout]
  have hq : ci.querySegs p = none := by
    unfold CodexIgnore.querySegs
    rw [hto, hstrip]
    rfl
  refine ⟨?_, ?_, ?_⟩
  · unfold CodexIgnore.is_file_ignored CodexIgnore.is_ignored
    rw [hq]
  · unfold CodexIgnore.is_dir_ignored CodexIgnore.is_ignored
    rw [hq]
  · unfold CodexIgnore.relative_path
    rw [hto, hstrip]
    rfl

theorem outside_root_C3_witness :
    ciLogs.is_file_ignored ⟨true, ["elsewhere", "debug.log"]⟩ = false ∧
    ciLogs.is_dir_ignored ⟨true, ["elsewhere", "debug.log"]⟩ = false ∧
    ciLogs.relative_path ⟨true, ["elsewhere", "debug.log"]⟩ = none :=
  outside_root_C3 ciLogs ⟨true, ["elsewhere", "debug.log"]⟩ rfl (by decide)

/-- C4: query resolution joins a relative path onto the root and takes an
absolute path as-is; for a path under the root, joining the root with its
root-relative form reconstructs the resolved absolute path, and resolving
the rejoined path again yields the same relative form (the round-trip is
stable). -/
theorem roundtrip_C4 (ci : CodexIgnore) (p : FsPath) :
    ((p.absolute = true → ci.to_absolute p = p) ∧
     (p.absolute = false → ci.to_absolute p = ci.root.join p)) ∧
    (ci.root.absolute = true → ∀ rel : FsPath,
       ci.relative_path p = some rel →
         ci.root.join rel = ci.to_absolute p ∧
         ci.relative_path (ci.root.join rel) = some rel) := by
  constructor
  · constructor
    · intro h
      simp [CodexIgnore.to_absolute, h]
    · intro h
      simp [CodexIgnore.to_absolute, h]
  · intro hr rel hrel
    unfold CodexIgnore.relative_path at hrel
    rw [Option.map_eq_some'] at hrel
    obtain ⟨segs, hstrip, hmk⟩ := hrel
    obtain ⟨habs2, hsegs⟩ := stripPrefixOf_eq_some hstrip
    subst hmk
    have hjoin : ci.root.join ⟨false, segs⟩ =
        ⟨ci.root.absolute, ci.root.segments ++ segs⟩ := by
      simp [FsPath.join]
    have h1 : ci.root.join ⟨false, segs⟩ = ci.to_absolute p := by
      rw [hjoin]
      exact (@FsPath.ext_eq (ci.to_absolute p)
        ⟨ci.root.absolute, ci.root.segments ++ segs⟩ habs2 hsegs).symm
    refine ⟨h1, ?_⟩
    have h2 : ci.to_absolute (ci.root.join ⟨false, segs⟩) =
        ci.root.join ⟨false, segs⟩ := by
      unfold CodexIgnore.to_absolute
      rw [hjoin]
      simp [hr]
    unfold CodexIgnore.relative_path
    rw [h2, hjoin, hr]
    rw [show (⟨true, ci.root.segments ++ segs⟩ : FsPath) =
          ⟨ci.root.absolute, ci.root.segments ++ segs⟩ by rw [hr],
      stripPrefixOf_append_segs]
    rfl

theorem roundtrip_C4_witness :
    ciLogs.root.absolute = true ∧
    ciLogs.relative_path ⟨false, ["a", "b"]⟩ = some ⟨false, ["a", "b"]⟩ ∧
    ciLogs.root.join ⟨false, ["a", "b"]⟩ =
      ciLogs.to_absolute ⟨false, ["a", "b"]⟩ ∧
    ciLogs.relative_path (ciLogs.root.join ⟨false, ["a", "b"]⟩) =
      some ⟨false, ["a", "b"]⟩ :=
  ⟨rfl, by decide,
   (roundtrip_C4 ciLogs ⟨false, ["a", "b"]⟩).2 rfl ⟨false, ["a", "b"]⟩
     (by decide)⟩

/-- C5: loading over a root with no ignore file succeeds with no matcher. -/
theorem load_missing_C5 (root : FsPath) :
    CodexIgnore.load_from_root root none = .ok none := rfl

/-- C6: all failures are construction-time.  An unreadable ignore file is an
I/O error; a malformed pattern line surfaces as `invalidPattern` with the
offending 1-based line number; in both cases no matcher is produced.  A
successful compilation yields the matcher, and every query on a matcher is
a total boolean function (it always returns a verdict, never an error). -/
theorem construction_errors_C6 (root : FsPath) (lines : List String) :
    CodexIgnore.load_from_root root (some (.error ())) = .error .ioError ∧
    (∀ n : Nat, compile lines = .error n →
       CodexIgnore.load_from_root root (some (.ok lines)) =
         .error (.invalidPattern n)) ∧
    (∀ rules : List Rule, compile lines = .ok rules →
       CodexIgnore.load_from_root root (some (.ok lines)) =
         .ok (some ⟨root, rules⟩)) ∧
    (∀ (ci : CodexIgnore) (p : FsPath) (b : Bool),
       ci.is_ignored p b = true ∨ ci.is_ignored p b = false) := by
  refine ⟨rfl, ?_, ?_, ?_⟩
  · intro n h
    show (match compile lines with
        | Except.error n => Except.error (LoadErr.invalidPattern n)
        | Except.ok rules =>
          Except.ok (some ⟨root, rules⟩) :
        Except LoadErr (Option CodexIgnore)) =
      Except.error (LoadErr.invalidPattern n)
    rw [h]
  · intro rules h
    show (match compile lines with
        | Except.error n => Except.error (LoadErr.invalidPattern n)
        | Except.ok rules =>
          Except.ok (some ⟨root, rules⟩) :
        Except LoadErr (Option CodexIgnore)) =
      Except.ok (some ⟨root, rules⟩)
    rw [h]
  · intro ci p b
    cases h : ci.is_ignored p b
    · right; rfl
    · left; rfl

theorem construction_errors_C6_witness :
    compile ["ok.txt", "bad[oops"] = .error 2 ∧
    CodexIgnore.load_from_root rootAbs (some (.ok ["ok.txt", "bad[oops"])) =
      .error (.invalidPattern 2) :=
  ⟨rfl, (construction_errors_C6 rootAbs ["ok.txt", "bad[oops"]).2.1 2 rfl⟩

/-- C7: querying the root itself substitutes the `.` marker segment and
evaluates it; when no rule matches the marker the verdict is false. -/
theorem root_query_C7 (ci : CodexIgnore) (b : Bool)
    (hr : ci.root.absolute = true) :
    ci.is_ignored ci.root b =
      verdict (matchedPathOrAnyParents ci.matcher ["."] b) ∧
    ((∀ r ∈ ci.matcher, ruleMatchesExact r ["."] b = false) →
       ci.is_ignored ci.root b = false) := by
  have hto : ci.to_absolute ci.root = ci.root := by
    simp [CodexIgnore.to_absolute, hr]
  have hq : ci.querySegs ci.root = some ["."] := by
    unfold CodexIgnore.querySegs
    rw [hto, stripPrefixOf_self]
    rfl
  have hmain : ci.is_ignored ci.root b =
      verdict (matchedPathOrAnyParents ci.matcher ["."] b) := by
    unfold CodexIgnore.is_ignored
    rw [hq]
  refine ⟨hmain, ?_⟩
  intro hnone
  have h1 : resAt ci.matcher ["."] b = .nomatch :=
    resAt_eq_nomatch _ _ _ hnone
  rw [hmain]
  unfold matchedPathOrAnyParents
  rw [h1]
  rfl

theorem root_query_C7_witness :
    ciLogs.root.absolute = true ∧ ciLogs.is_ignored ciLogs.root false = false :=
  ⟨rfl, (root_query_C7 ciLogs false rfl).2 (by decide)⟩

/-- C8: queries are pure — the verdict is a function of only the rule set,
the root, the query path and the directory flag, and repeated queries on the
same matcher agree. -/
theorem query_purity_C8 (ci ci' : CodexIgnore) (p : FsPath) (b : Bool)
    (hroot : ci.root = ci'.root) (hrules : ci.matcher = ci'.matcher) :
    ci.is_ignored p b = ci'.is_ignored p b ∧
    ci.is_file_ignored p = ci'.is_file_ignored p ∧
    ci.is_dir_ignored p = ci'.is_dir_ignored p ∧
    ci.relative_path p = ci'.relative_path p ∧
    ci.is_ignored p b = ci.is_ignored p b := by
  cases ci
  cases ci'
  simp only at hroot hrules
  subst hroot
  subst hrules
  exact ⟨rfl, rfl, rfl, rfl, rfl⟩

theorem query_purity_C8_witness :
    ciLogs.is_ignored ⟨true, ["root", "debug.log"]⟩ false =
      ciLogs.is_ignored ⟨true, ["root", "debug.log"]⟩ false :=
  (query_purity_C8 ciLogs ciLogs ⟨true, ["root", "debug.log"]⟩ false rfl
    rfl).1

/-- C9: the root itself (and the empty relative query) is contained in the
root: `relative_path` returns the empty relative path, with no `.`
substitution. -/
theorem root_relative_empty_C9 (ci : CodexIgnore)
    (hr : ci.root.absolute = true) :
    ci.relative_path ci.root = some ⟨false, []⟩ ∧
    ci.relative_path ⟨false, []⟩ = some ⟨false, []⟩ := by
  have hto : ci.to_absolute ci.root = ci.root := by
    simp [CodexIgnore.to_absolute, hr]
  constructor
  · unfold CodexIgnore.relative_path
    rw [hto, stripPrefixOf_self]
    rfl
  · have hto2 : ci.to_absolute ⟨false, []⟩ = ci.root := by
      simp [CodexIgnore.to_absolute, FsPath.join]
    unfold CodexIgnore.relative_path
    rw [hto2, stripPrefixOf_self]
    rfl

theorem root_relative_empty_C9_witness :
    ciLogs.relative_path ciLogs.root = some ⟨false, []⟩ :=
  (root_relative_empty_C9 ciLogs rfl).1

/-- C10: a path with no root-relative form is ignored by neither query —
all three operations share the same resolve-then-strip computation. -/
theorem cross_op_consistency_C10 (ci : CodexIgnore) (p : FsPath)
    (h : ci.relative_path p = none) :
    ci.is_file_ignored p = false ∧ ci.is_dir_ignored p = false := by
  have hstrip : stripPrefixOf ci.root (ci.to_absolute p) = none := by
    unfold CodexIgnore.relative_path at h
    exact Option.map_eq_none'.mp h
  have hq : ci.querySegs p = none := by
    unfold CodexIgnore.querySegs
    rw [hstrip]
    rfl
  constructor
  · unfold CodexIgnore.is_file_ignored CodexIgnore.is_ignored
    rw [hq]
  · unfold CodexIgnore.is_dir_ignored CodexIgnore.is_ignored
    rw [hq]

theorem cross_op_consistency_C10_witness :
    ciLogs.is_file_ignored ⟨true, ["elsewhere"]⟩ = false ∧
    ciLogs.is_dir_ignored ⟨true, ["elsewhere"]⟩ = false :=
  cross_op_consistency_C10 ciLogs ⟨true, ["elsewhere"]⟩ (by decide)
